import Mathlib

/-
Verification of the Yamale schema-validation engine, a shallow embedding of
src/yamale/schema/schema.py (class Schema: validation only; compilation of raw
schemas is out of scope of the claims).

Conventions of the embedding:
  * Python values (the data documents) are the inductive `Value`; Python `None`
    is `Value.null`.
  * A compiled schema tree (`self._schema`) is a `SchemaNode`: a static map or
    list Composite keeps its children, a leaf holds a compiled `Validator`.
  * The validator capability surface (the `yamale.validators` module is not
    among the sources; the spec gives its contract in section 4.1) is the
    inductive `Validator`: `prim` carries the leaf-level check as a function
    `Value → List String`, the five composite kinds carry their parameters.
    Composite kinds answer the leaf-level `validate(value)` with no errors
    (spec 4.1); Include and IncludeIf are distinct kinds (spec 4.4: mutually
    exclusive by construction).
  * The includes registry (`self.includes`, shared by identity between a schema
    and every included schema) is a `Registry`, threaded through the recursion.
  * Each schema instance owns a `rootData : Option Value` modelling the
    `_root_data` attribute: `none` stands for the attribute never having been
    assigned.  Reading it unassigned raises AttributeError in Python; the
    engine returns `Option.none` for that (and for exhausted fuel, standing
    for the divergence of unboundedly recursive includes, which the source
    does not guard against).
  * Every engine function takes a fuel argument and consumes one unit per
    call, so the mutual recursion is structural; `Option.none` results from
    running out.  Any terminating Python run is reproduced by every
    sufficiently large fuel.
-/

namespace Yamale

/-- A Python value: the data documents Yamale validates (maps, sequences,
scalars, None). -/
inductive Value where
  | null
  | vbool (b : Bool)
  | vint (n : Int)
  | vstr (s : String)
  | vlist (items : List Value)
  | vmap (entries : List (String × Value))

/-- Python `value is None`. -/
def Value.isNull : Value → Bool
  | .null => true
  | _ => false

/-- Modelled from the spec: `util.is_map` (the util module is not among the
sources) — is the value a mapping. -/
def Value.isMap : Value → Bool
  | .vmap _ => true
  | _ => false

/-- Modelled from the spec: `util.is_list` — is the value a sequence. -/
def Value.isList : Value → Bool
  | .vlist _ => true
  | _ => false

mutual

/-- Python `repr` of a value, as `str` uses it inside containers. -/
def pyRepr : Value → String
  | .null => "None"
  | .vbool b => if b then "True" else "False"
  | .vint n => toString n
  | .vstr s => "'" ++ s ++ "'"
  | .vlist xs => "[" ++ pyReprList xs ++ "]"
  | .vmap es => "\x7b" ++ pyReprMap es ++ "\x7d"

/-- Comma-separated `repr`s of a list's items. -/
def pyReprList : List Value → String
  | [] => ""
  | [x] => pyRepr x
  | x :: xs => pyRepr x ++ ", " ++ pyReprList xs

/-- Comma-separated `'key': repr` pairs of a map's entries. -/
def pyReprMap : List (String × Value) → String
  | [] => ""
  | [(k, v)] => "'" ++ k ++ "': " ++ pyRepr v
  | (k, v) :: es => "'" ++ k ++ "': " ++ pyRepr v ++ ", " ++ pyReprMap es

end

/-- Python `str` of a value, as the `'%s' % data` interpolations render it:
like `repr` except that a top-level string keeps no quotes. -/
def pyStr : Value → String
  | .vstr s => s
  | v => pyRepr v

/-- A path segment: a map key or a sequence index. -/
inductive Key where
  | k (s : String)
  | idx (n : Nat)
deriving DecidableEq

/-- Python `str` of one segment. -/
def keyToString : Key → String
  | .k s => s
  | .idx n => toString n

/-- A DataPath: the ordered sequence of segments locating a node. -/
abbrev Path := List Key

/-- Modelled from the spec: `str(DataPath(...))` (the datapath module is not
among the sources) — the segments joined with the separator `/`. -/
def renderPath (p : Path) : String :=
  String.intercalate "/" (p.map keyToString)

/-- The validator capability surface (spec 4.1): common attributes
`is_optional` and `can_be_none`, a primitive leaf-level check, and the five
composite kinds Map, List, Any, Include, IncludeIf with their parameters. -/
inductive Validator where
  | prim (isOpt canNone : Bool) (check : Value → List String)
  | vmap (isOpt canNone : Bool) (subs : List Validator)
  | vlist (isOpt canNone : Bool) (subs : List Validator)
  | vany (isOpt canNone : Bool) (subs : List Validator)
  | vinclude (isOpt canNone : Bool) (include_name : String) (strictOv : Option Bool)
  | vincludeIf (isOpt canNone : Bool) (if_path if_include_test then_include : String)
      (else_include : Option String) (strictOv : Option Bool)

/-- `validator.is_optional`. -/
def Validator.is_optional : Validator → Bool
  | .prim o _ _ => o
  | .vmap o _ _ => o
  | .vlist o _ _ => o
  | .vany o _ _ => o
  | .vinclude o _ _ _ => o
  | .vincludeIf o _ _ _ _ _ _ => o

/-- `validator.can_be_none`. -/
def Validator.can_be_none : Validator → Bool
  | .prim _ c _ => c
  | .vmap _ c _ => c
  | .vlist _ c _ => c
  | .vany _ c _ => c
  | .vinclude _ c _ _ => c
  | .vincludeIf _ c _ _ _ _ _ => c

/-- `isinstance(validator, val.IncludeIf)`. -/
def Validator.isIncludeIf : Validator → Bool
  | .vincludeIf _ _ _ _ _ _ _ => true
  | _ => false

/-- `isinstance(validator, val.Include)` (IncludeIf is a distinct kind,
spec 4.4). -/
def Validator.isInclude : Validator → Bool
  | .vinclude _ _ _ _ => true
  | _ => false

/-- Modelled from the spec: the leaf-level `validator.validate(value)` of
section 4.1 — a primitive validator returns its structural errors (no path
prefix), a composite validator returns an empty list at this level. -/
def Validator.validateLeaf : Validator → Value → List String
  | .prim _ _ check, data => check data
  | _, _ => []

/-- A compiled schema tree node: a static Composite literal map or list, or a
leaf holding a compiled validator. -/
inductive SchemaNode where
  | smap (children : List (String × SchemaNode))
  | slist (children : List SchemaNode)
  | leaf (v : Validator)

/-- `isinstance(validator, val.Validator)`: only a leaf is a Validator
instance, a static Composite is a plain dict or list. -/
def SchemaNode.isValidatorLeaf : SchemaNode → Bool
  | .leaf _ => true
  | _ => false

/-- `isinstance(validator, val.IncludeIf)` asked of a schema-tree child. -/
def SchemaNode.isIncludeIfLeaf : SchemaNode → Bool
  | .leaf v => v.isIncludeIf
  | _ => false

/-- `validator.is_optional` asked of a leaf child (`false` is never read for
a Composite: the engine consults optionality only behind the
`isinstance(validator, val.Validator)` guard). -/
def SchemaNode.leafOptional : SchemaNode → Bool
  | .leaf v => v.is_optional
  | _ => false

/-- Modelled from the spec: `util.get_iter` over a static Composite — its
children with their keys (map keys in order, list indices in order). -/
def SchemaNode.children : SchemaNode → List (Key × SchemaNode)
  | .smap cs => cs.map (fun c => (Key.k c.1, c.2))
  | .slist cs => cs.enum.map (fun c => (Key.idx c.1, c.2))
  | .leaf _ => []

/-- Modelled from the spec: `util.get_keys` of a static Composite. -/
def SchemaNode.keys (n : SchemaNode) : List Key :=
  n.children.map Prod.fst

/-- Modelled from the spec: `util.get_keys` of a data value — a map's keys in
order, a sequence's indices `0..len-1`, nothing for a scalar. -/
def getKeys : Value → List Key
  | .vmap es => es.map (fun e => Key.k e.1)
  | .vlist xs => (List.range xs.length).map Key.idx
  | _ => []

/-- Python `data[key]` as `_validate_item` uses it: `none` is the caught
KeyError (missing map key) or IndexError (index out of range).  A scalar or a
mismatched key kind would raise an uncaught TypeError in Python; those cases
are unreachable from the engine's call sites (data is checked to be a map or
a list first, and keys are drawn accordingly), and return `none` here. -/
def lookupData : Value → Key → Option Value
  | .vmap es, .k s => es.lookup s
  | .vlist xs, .idx i => xs.get? i
  | _, _ => none

/-- One schema instance as the registry holds it: its name, its compiled tree
(`self._schema`) and its `_root_data` attribute (`none` = never assigned). -/
structure SchemaInst where
  name : String
  tree : SchemaNode
  rootData : Option Value

/-- The shared includes registry: include name to schema instance
(`self.includes`, shared by identity among a schema and its includes). -/
abbrev Registry := List (String × SchemaInst)

/-- Python `self.includes.get(name)`. -/
def regGet (reg : Registry) (name : String) : Option SchemaInst :=
  reg.lookup name

/-- Split a character list at every `/` (Python `s.split('/')`, keeping empty
pieces). -/
def splitSlashChars : List Char → List (List Char)
  | [] => [[]]
  | c :: rest =>
    let r := splitSlashChars rest
    if c = '/' then [] :: r
    else
      match r with
      | [] => [[c]]  -- unreachable: the result is never empty
      | h :: t => (c :: h) :: t

/-- Python `s.split('/')`. -/
def splitSlash (s : String) : List String :=
  (splitSlashChars s.data).map String.mk

/-- A path segment read as a sequence index: some digits. -/
def segToNat? (s : String) : Option Nat :=
  if s.data ≠ [] ∧ s.data.all Char.isDigit then
    some (s.data.foldl (fun n c => n * 10 + (c.toNat - 48)) 0)
  else none

/-- Modelled from the spec: `dpath.util.get(root, path)` — the external
absolute-path getter over the root document; it splits the path on `/`
(ignoring empty segments), walks maps by key and sequences by numeric index,
and `none` is the KeyError it raises when the chain does not resolve. -/
def dpathGet : Value → List String → Option Value
  | v, [] => some v
  | .vmap es, s :: rest =>
    match es.lookup s with
    | some v' => dpathGet v' rest
    | none => none
  | .vlist xs, s :: rest =>
    match segToNat? s with
    | some i =>
      match xs.get? i with
      | some v' => dpathGet v' rest
      | none => none
    | none => none
  | _, _ :: _ => none

/-- The segments `dpath.util.get` resolves for a path expression. -/
def dpathSegs (p : String) : List String :=
  (splitSlash p).filter (fun s => s ≠ "")

/-- `DataPath(validator.if_path.split('/'))`: the DataPath at which the
IncludeIf condition is validated.  Python `split` keeps empty segments, so a
leading `/` contributes an empty first segment (it only ever reaches error
rendering of the discarded condition check). -/
def ifPathDataPath (p : String) : Path :=
  (splitSlash p).map Key.k

/-- `_validate_primitive`: run the leaf-level check and prefix every error
with `'%s: ' % path`. -/
def validate_primitive (v : Validator) (data : Value) (path : Path) : List String :=
  (v.validateLeaf data).map (fun e => renderPath path ++ ": " ++ e)

mutual

/-- `Schema._validate(validator, data, path, strict)`.  `reg` is
`self.includes`, `root` is `self._root_data` (of the instance the method runs
on).  Returns `none` for an uncaught Python exception or exhausted fuel. -/
def validate : Nat → Registry → Option Value → SchemaNode → Value → Path → Bool →
    Option (List String)
  | 0, _, _, _, _, _, _ => none
  | fuel+1, reg, root, node, data, path, strict =>
    match node with
    | .smap _ => validate_static_map_list fuel reg root node data path strict
    | .slist _ => validate_static_map_list fuel reg root node data path strict
    | .leaf v =>
      -- Optional field with optional value? Who cares.
      if data.isNull && v.is_optional && v.can_be_none && !v.isIncludeIf then
        some []
      else
        let perrs := validate_primitive v data path
        if perrs = [] then do
          let incErrs ←
            if v.isInclude then validate_include fuel reg root v data path strict
            else some []
          let restErrs ←
            match v with
            | .vincludeIf _ _ _ _ _ _ _ =>
              validate_include_if fuel reg root v data path strict
            | .vmap _ _ _ => validate_map_list fuel reg root v data path strict
            | .vlist _ _ _ => validate_map_list fuel reg root v data path strict
            | .vany _ _ _ => validate_any fuel reg root v data path strict
            | _ => some []
          some (incErrs ++ restErrs)
        else some perrs

/-- `Schema._validate_item(validator, data, path, strict, key)`: fetch
`data[key]` and validate it; on a missing key, IncludeIf recurses with None,
an optional Validator passes, anything else is a missing required field. -/
def validate_item : Nat → Registry → Option Value → SchemaNode → Value → Path →
    Bool → Key → Option (List String)
  | 0, _, _, _, _, _, _, _ => none
  | fuel+1, reg, root, node, data, path, strict, key =>
    let path' := path ++ [key]
    match lookupData data key with
    | some item => validate fuel reg root node item path' strict
    | none =>
      if !node.isIncludeIfLeaf then
        -- Optional? Who cares.
        if node.isValidatorLeaf && node.leafOptional then some []
        else some [renderPath path' ++ ": Required field missing"]
      else validate fuel reg root node .null path' strict

/-- `Schema._validate_static_map_list`: shape check of a static Composite,
then the strict unknown-key sweep and the per-child walk. -/
def validate_static_map_list : Nat → Registry → Option Value → SchemaNode →
    Value → Path → Bool → Option (List String)
  | 0, _, _, _, _, _, _ => none
  | fuel+1, reg, root, node, data, path, strict =>
    match node with
    | .smap _ =>
      if !data.isMap then
        if data.isNull then some [renderPath path ++ ": Required field missing"]
        else some [renderPath path ++ " : '" ++ pyStr data ++ "' is not a map"]
      else static_body fuel reg root node data path strict
    | .slist _ =>
      if !data.isList then
        some [renderPath path ++ " : '" ++ pyStr data ++ "' is not a list"]
      else static_body fuel reg root node data path strict
    | .leaf _ => some []  -- unreachable: only called on static Composites

/-- The shared tail of `_validate_static_map_list` once the shape matched:
under strict, every data key not among the schema keys is an unexpected
element (the Python set difference iterates in an order of its own; here the
extra keys come in data order); then every declared child is validated. -/
def static_body : Nat → Registry → Option Value → SchemaNode → Value → Path →
    Bool → Option (List String)
  | 0, _, _, _, _, _, _ => none
  | fuel+1, reg, root, node, data, path, strict => do
    let strictErrs :=
      if strict then
        ((getKeys data).filter (fun k => !node.keys.contains k)).map
          (fun k => renderPath (path ++ [k]) ++ ": Unexpected element")
      else []
    let itemErrs ← items_loop fuel reg root node.children data path strict
    some (strictErrs ++ itemErrs)

/-- The `for key, sub_validator in util.get_iter(validator)` loop of
`_validate_static_map_list`: error lists concatenated in declaration order. -/
def items_loop : Nat → Registry → Option Value → List (Key × SchemaNode) →
    Value → Path → Bool → Option (List String)
  | 0, _, _, _, _, _, _ => none
  | _+1, _, _, [], _, _, _ => some []
  | fuel+1, reg, root, (key, child) :: rest, data, path, strict => do
    let e ← validate_item fuel reg root child data path strict key
    let es ← items_loop fuel reg root rest data path strict
    some (e ++ es)

/-- `Schema._validate_map_list`: a dynamic Map or List validator; with no
sub-validators it accepts anything, else any-of per data key. -/
def validate_map_list : Nat → Registry → Option Value → Validator → Value →
    Path → Bool → Option (List String)
  | 0, _, _, _, _, _, _ => none
  | fuel+1, reg, root, v, data, path, strict =>
    match v with
    | .vmap _ _ subs =>
      if subs.isEmpty then some []  -- No validators, user just wanted a map.
      else map_list_keys fuel reg root subs (getKeys data) data path strict
    | .vlist _ _ subs =>
      if subs.isEmpty then some []
      else map_list_keys fuel reg root subs (getKeys data) data path strict
    | _ => some []  -- unreachable: only called on Map/List validators

/-- The `for key in util.get_keys(data)` loop of `_validate_map_list`: a key
contributes all its sub-validator errors when every sub-validator failed,
nothing otherwise. -/
def map_list_keys : Nat → Registry → Option Value → List Validator →
    List Key → Value → Path → Bool → Option (List String)
  | 0, _, _, _, _, _, _, _ => none
  | _+1, _, _, _, [], _, _, _ => some []
  | fuel+1, reg, root, subs, key :: ks, data, path, strict => do
    let subErrs ← map_list_subs fuel reg root subs data path strict key
    let here := if subErrs.length = subs.length then subErrs.flatten else []
    let rest ← map_list_keys fuel reg root subs ks data path strict
    some (here ++ rest)

/-- The inner `for v in validator.validators` loop of `_validate_map_list`:
the nonempty error lists, one per failing sub-validator, in order. -/
def map_list_subs : Nat → Registry → Option Value → List Validator → Value →
    Path → Bool → Key → Option (List (List String))
  | 0, _, _, _, _, _, _, _ => none
  | _+1, _, _, [], _, _, _, _ => some []
  | fuel+1, reg, root, v :: vs, data, path, strict, key => do
    let err ← validate_item fuel reg root (.leaf v) data path strict key
    let rest ← map_list_subs fuel reg root vs data path strict key
    some (if err = [] then rest else err :: rest)

/-- `Schema._validate_include`: look the include up in the shared registry
and delegate to the included schema's own `_validate` (its own tree and its
own `_root_data`), with the include's strict override if set. -/
def validate_include : Nat → Registry → Option Value → Validator → Value →
    Path → Bool → Option (List String)
  | 0, _, _, _, _, _, _ => none
  | fuel+1, reg, _, v, data, path, strict =>
    match v with
    | .vinclude _ _ name strictOv =>
      match regGet reg name with
      | none => some ["Include '" ++ name ++ "' has not been defined."]
      | some inst =>
        validate fuel reg inst.rootData inst.tree data path (strictOv.getD strict)
    | _ => some []  -- unreachable: only called on Include validators

/-- `Schema._validate_include_if`: resolve the effective strict flag, look
`if_path` up in `self._root_data` (AttributeError — `Option.none` — when that
attribute was never bound; under strict a missing path is the single error,
under lenient the looked-up value is an empty map), then run the condition
and branch. -/
def validate_include_if : Nat → Registry → Option Value → Validator → Value →
    Path → Bool → Option (List String)
  | 0, _, _, _, _, _, _ => none
  | fuel+1, reg, root, v, data, path, strict =>
    match v with
    | .vincludeIf _ _ ifPath ifTest thenInc elseInc strictOv =>
      let strict' := strictOv.getD strict
      match root with
      | none => none  -- reading the unassigned `self._root_data` raises
      | some rootDoc =>
        match dpathGet rootDoc (dpathSegs ifPath) with
        | none =>
          if strict' then some ["path '" ++ ifPath ++ "' does not exist."]
          else
            include_if_body fuel reg (.vmap []) (ifPathDataPath ifPath) ifTest
              thenInc elseInc data path strict'
        | some ifData =>
          include_if_body fuel reg ifData (ifPathDataPath ifPath) ifTest
            thenInc elseInc data path strict'
    | _ => some []  -- unreachable: only called on IncludeIf validators

/-- The tail of `_validate_include_if` after the `if_path` lookup: validate
the looked-up value against the test schema (those errors only choose the
branch), then resolve `then_include`, or `else_include`, or — with no else —
an unexpected element under strict when the data is present. -/
def include_if_body : Nat → Registry → Value → Path → String → String →
    Option String → Value → Path → Bool → Option (List String)
  | 0, _, _, _, _, _, _, _, _, _ => none
  | fuel+1, reg, ifData, ifPathDP, ifTest, thenInc, elseInc, data, path, strict => do
    match regGet reg ifTest with
    | none => some ["Include '" ++ ifTest ++ "' has not been defined."]
    | some ifSchema =>
      let condErrs ←
        validate fuel reg ifSchema.rootData ifSchema.tree ifData ifPathDP strict
      if condErrs = [] then resolve_include_name fuel reg thenInc data path strict
      else
        match elseInc with
        | none =>
          some (if strict && !data.isNull then
            [renderPath path ++ ": Unexpected element"] else [])
        | some nm => resolve_include_name fuel reg nm data path strict

/-- The final include resolution of `_validate_include_if` (lines 213-220):
look the chosen branch up in the registry and delegate to that schema. -/
def resolve_include_name : Nat → Registry → String → Value → Path → Bool →
    Option (List String)
  | 0, _, _, _, _, _ => none
  | fuel+1, reg, name, data, path, strict =>
    match regGet reg name with
    | none => some ["Include '" ++ name ++ "' has not been defined."]
    | some inst => validate fuel reg inst.rootData inst.tree data path strict

/-- `Schema._validate_any`: with no sub-validators a configuration error,
else every sub-validator is tried by the full recursion and all errors are
kept only when all of them failed. -/
def validate_any : Nat → Registry → Option Value → Validator → Value → Path →
    Bool → Option (List String)
  | 0, _, _, _, _, _, _ => none
  | fuel+1, reg, root, v, data, path, strict =>
    match v with
    | .vany _ _ subs =>
      if subs.isEmpty then some ["No validators specified for \"any\"."]
      else do
        let subErrs ← any_subs fuel reg root subs data path strict
        some (if subErrs.length = subs.length then subErrs.flatten else [])
    | _ => some []  -- unreachable: only called on Any validators

/-- The `for v in validator.validators` loop of `_validate_any`: the nonempty
error lists, one per failing sub-validator, in order. -/
def any_subs : Nat → Registry → Option Value → List Validator → Value → Path →
    Bool → Option (List (List String))
  | 0, _, _, _, _, _, _ => none
  | _+1, _, _, [], _, _, _ => some []
  | fuel+1, reg, root, v :: vs, data, path, strict => do
    let err ← validate fuel reg root (.leaf v) data path strict
    let rest ← any_subs fuel reg root vs data path strict
    some (if err = [] then rest else err :: rest)

end

/-- One schema object as `validate` is called on it: name, compiled tree,
shared includes registry, and the `_root_data` attribute (`none` = never
assigned). -/
structure SchemaState where
  name : String
  tree : SchemaNode
  includes : Registry
  rootData : Option Value

/-- `Schema.validate(data, data_name, strict)`: bind `self._root_data`, run
the recursive engine from the tree root at the empty path, and raise a
single aggregate ValueError when it produced errors.  The result pairs the
raised message (`none` = returned normally) with the instance's state after
the call; the outer `Option` is an uncaught exception or exhausted fuel.
(The Python 2 encode branch is a no-op here.) -/
def SchemaState.validate (fuel : Nat) (st : SchemaState) (data : Value)
    (dataName : String) (strict : Bool) : Option (Option String × SchemaState) :=
  let st' : SchemaState := { st with rootData := some data }
  match Yamale.validate fuel st'.includes st'.rootData st'.tree data [] strict with
  | none => none
  | some errs =>
    if errs = [] then some (none, st')
    else
      some (some ("\nError validating data " ++ dataName ++ " with schema "
        ++ st.name ++ "\n\t" ++ String.intercalate "\n\t" errs), st')

/-- An error string carrying a path prefix: `<path>: <msg>`, or the
`<path> : '<value>' is not a <map|list>` variant. -/
def pathErr (e : String) : Prop :=
  ∃ p : Path, ∃ t : String,
    e = renderPath p ++ ": " ++ t ∨ e = renderPath p ++ " : " ++ t

/-- The configuration errors the engine emits with no path prefix: an
undefined include, an empty Any, and an unresolved IncludeIf path. -/
def configError (e : String) : Prop :=
  (∃ n, e = "Include '" ++ n ++ "' has not been defined.") ∨
  e = "No validators specified for \"any\"." ∨
  (∃ p, e = "path '" ++ p ++ "' does not exist.")

/-- An error string the engine may emit: path-qualified, or one of the
path-less configuration errors. -/
def goodErr (e : String) : Prop := pathErr e ∨ configError e

/-- Example fixture: the external `str()` primitive (accepts exactly
strings), as the spec's examples use it. -/
def strCheck : Value → List String
  | .vstr _ => []
  | _ => ["is not a str"]

/-- Example fixture: the external `int()` primitive. -/
def intCheck : Value → List String
  | .vint _ => []
  | _ => ["is not an int"]

/-- Example fixture: a condition primitive accepting exactly the string
`a`. -/
def eqACheck : Value → List String
  | .vstr "a" => []
  | _ => ["is not equal to a"]

/-- Example fixture: a registry with a condition test and two branch
includes, for the IncludeIf scenarios. -/
def regEx : Registry :=
  [("isA", ⟨"isA", .leaf (.prim false false eqACheck), none⟩),
   ("wantInt", ⟨"wantInt", .leaf (.prim false false intCheck), none⟩),
   ("wantStr", ⟨"wantStr", .leaf (.prim false false strCheck), none⟩)]

/-- Fuel monotonicity: a result the engine reaches with some fuel is reached
unchanged with any larger fuel (one conjunct per engine function).  Fuel only
models the divergence of unboundedly recursive includes, so any defined
result is stable. -/
theorem engine_mono : ∀ fuel : Nat, ∀ fuel', fuel ≤ fuel' →
    (∀ reg root node data path strict r,
      validate fuel reg root node data path strict = some r →
      validate fuel' reg root node data path strict = some r) ∧
    (∀ reg root node data path strict key r,
      validate_item fuel reg root node data path strict key = some r →
      validate_item fuel' reg root node data path strict key = some r) ∧
    (∀ reg root node data path strict r,
      validate_static_map_list fuel reg root node data path strict = some r →
      validate_static_map_list fuel' reg root node data path strict = some r) ∧
    (∀ reg root node data path strict r,
      static_body fuel reg root node data path strict = some r →
      static_body fuel' reg root node data path strict = some r) ∧
    (∀ reg root items data path strict r,
      items_loop fuel reg root items data path strict = some r →
      items_loop fuel' reg root items data path strict = some r) ∧
    (∀ reg root v data path strict r,
      validate_map_list fuel reg root v data path strict = some r →
      validate_map_list fuel' reg root v data path strict = some r) ∧
    (∀ reg root subs ks data path strict r,
      map_list_keys fuel reg root subs ks data path strict = some r →
      map_list_keys fuel' reg root subs ks data path strict = some r) ∧
    (∀ reg root subs data path strict key r,
      map_list_subs fuel reg root subs data path strict key = some r →
      map_list_subs fuel' reg root subs data path strict key = some r) ∧
    (∀ reg root v data path strict r,
      validate_include fuel reg root v data path strict = some r →
      validate_include fuel' reg root v data path strict = some r) ∧
    (∀ reg root v data path strict r,
      validate_include_if fuel reg root v data path strict = some r →
      validate_include_if fuel' reg root v data path strict = some r) ∧
    (∀ reg ifData dp it ti ei data path strict r,
      include_if_body fuel reg ifData dp it ti ei data path strict = some r →
      include_if_body fuel' reg ifData dp it ti ei data path strict = some r) ∧
    (∀ reg name data path strict r,
      resolve_include_name fuel reg name data path strict = some r →
      resolve_include_name fuel' reg name data path strict = some r) ∧
    (∀ reg root v data path strict r,
      validate_any fuel reg root v data path strict = some r →
      validate_any fuel' reg root v data path strict = some r) ∧
    (∀ reg root subs data path strict r,
      any_subs fuel reg root subs data path strict = some r →
      any_subs fuel' reg root subs data path strict = some r) := by
  intro fuel
  induction fuel with
  | zero =>
    intro fuel' _
    exact ⟨fun _ _ _ _ _ _ _ h => by simp [validate] at h,
      fun _ _ _ _ _ _ _ _ h => by simp [validate_item] at h,
      fun _ _ _ _ _ _ _ h => by simp [validate_static_map_list] at h,
      fun _ _ _ _ _ _ _ h => by simp [static_body] at h,
      fun _ _ _ _ _ _ _ h => by simp [items_loop] at h,
      fun _ _ _ _ _ _ _ h => by simp [validate_map_list] at h,
      fun _ _ _ _ _ _ _ _ h => by simp [map_list_keys] at h,
      fun _ _ _ _ _ _ _ _ h => by simp [map_list_subs] at h,
      fun _ _ _ _ _ _ _ h => by simp [validate_include] at h,
      fun _ _ _ _ _ _ _ h => by simp [validate_include_if] at h,
      fun _ _ _ _ _ _ _ _ _ _ h => by simp [include_if_body] at h,
      fun _ _ _ _ _ _ h => by simp [resolve_include_name] at h,
      fun _ _ _ _ _ _ _ h => by simp [validate_any] at h,
      fun _ _ _ _ _ _ _ h => by simp [any_subs] at h⟩
  | succ n ih =>
    intro fuel' hle
    cases fuel' with
    | zero => exact absurd hle (by omega)
    | succ m =>
    have hnm : n ≤ m := Nat.succ_le_succ_iff.mp hle
    obtain ⟨ihV, ihIt, ihSt, ihB, ihIl, ihMl, ihMk, ihMs, ihInc, ihIif,
      ihBody, ihRes, ihAny, ihAs⟩ := ih m hnm
    refine ⟨?_, ?_, ?_, ?_, ?_, ?_, ?_, ?_, ?_, ?_, ?_, ?_, ?_, ?_⟩
    -- validate
    · intro reg root node data path strict r h
      cases node with
      | smap cs =>
        simp only [validate] at h ⊢
        exact ihSt _ _ _ _ _ _ _ h
      | slist cs =>
        simp only [validate] at h ⊢
        exact ihSt _ _ _ _ _ _ _ h
      | leaf v =>
        simp only [validate] at h ⊢
        by_cases h0 :
            (data.isNull && v.is_optional && v.can_be_none && !v.isIncludeIf) = true
        · rw [if_pos h0] at h ⊢; exact h
        · rw [if_neg h0] at h ⊢
          by_cases hp : validate_primitive v data path = []
          · rw [if_pos hp] at h ⊢
            cases v with
            | prim o c ck =>
              simp only [Validator.isInclude] at h ⊢; exact h
            | vmap o c subs =>
              simp [Validator.isInclude] at h ⊢
              exact ihMl _ _ _ _ _ _ _ h
            | vlist o c subs =>
              simp [Validator.isInclude] at h ⊢
              exact ihMl _ _ _ _ _ _ _ h
            | vany o c subs =>
              simp [Validator.isInclude] at h ⊢
              exact ihAny _ _ _ _ _ _ _ h
            | vinclude o c nm so =>
              simp [Validator.isInclude] at h ⊢
              exact ihInc _ _ _ _ _ _ _ h
            | vincludeIf o c ip it ti ei so =>
              simp [Validator.isInclude] at h ⊢
              exact ihIif _ _ _ _ _ _ _ h
          · rw [if_neg hp] at h ⊢; exact h
    -- validate_item
    · intro reg root node data path strict key r h
      simp only [validate_item] at h ⊢
      cases hl : lookupData data key with
      | some item =>
        simp only [hl] at h ⊢
        exact ihV _ _ _ _ _ _ _ h
      | none =>
        simp only [hl] at h ⊢
        by_cases hii : node.isIncludeIfLeaf = true
        · simp only [hii, Bool.not_true, Bool.false_eq_true, if_false] at h ⊢
          exact ihV _ _ _ _ _ _ _ h
        · have hii' : node.isIncludeIfLeaf = false := by
            revert hii; cases node.isIncludeIfLeaf <;> simp
          simp only [hii', Bool.not_false, if_true] at h ⊢
          exact h
    -- validate_static_map_list
    · intro reg root node data path strict r h
      cases node with
      | smap cs =>
        simp only [validate_static_map_list] at h ⊢
        by_cases hm : data.isMap = true
        · simp only [hm, Bool.not_true, Bool.false_eq_true, if_false] at h ⊢
          exact ihB _ _ _ _ _ _ _ h
        · have hm' : data.isMap = false := by
            revert hm; cases data.isMap <;> simp
          simp only [hm', Bool.not_false, if_true] at h ⊢
          exact h
      | slist cs =>
        simp only [validate_static_map_list] at h ⊢
        by_cases hm : data.isList = true
        · simp only [hm, Bool.not_true, Bool.false_eq_true, if_false] at h ⊢
          exact ihB _ _ _ _ _ _ _ h
        · have hm' : data.isList = false := by
            revert hm; cases data.isList <;> simp
          simp only [hm', Bool.not_false, if_true] at h ⊢
          exact h
      | leaf v =>
        simp only [validate_static_map_list] at h ⊢
        exact h
    -- static_body
    · intro reg root node data path strict r h
      simp only [static_body, Option.bind_eq_bind', Option.bind_eq_some']
        at h ⊢
      obtain ⟨es, hes, hr⟩ := h
      exact ⟨es, ihIl _ _ _ _ _ _ _ hes, hr⟩
    -- items_loop
    · intro reg root items data path strict r h
      cases items with
      | nil => simp only [items_loop] at h ⊢; exact h
      | cons kc rest =>
        obtain ⟨key, child⟩ := kc
        simp only [items_loop, Option.bind_eq_bind', Option.bind_eq_some']
          at h ⊢
        obtain ⟨e, he, es, hes, hr⟩ := h
        exact ⟨e, ihIt _ _ _ _ _ _ _ _ he, es, ihIl _ _ _ _ _ _ _ hes, hr⟩
    -- validate_map_list
    · intro reg root v data path strict r h
      cases v with
      | vmap o c subs =>
        simp only [validate_map_list] at h ⊢
        by_cases hs : subs.isEmpty
        · rw [if_pos hs] at h ⊢; exact h
        · rw [if_neg hs] at h ⊢; exact ihMk _ _ _ _ _ _ _ _ h
      | vlist o c subs =>
        simp only [validate_map_list] at h ⊢
        by_cases hs : subs.isEmpty
        · rw [if_pos hs] at h ⊢; exact h
        · rw [if_neg hs] at h ⊢; exact ihMk _ _ _ _ _ _ _ _ h
      | prim o c ck => simp only [validate_map_list] at h ⊢; exact h
      | vany o c subs => simp only [validate_map_list] at h ⊢; exact h
      | vinclude o c nm so => simp only [validate_map_list] at h ⊢; exact h
      | vincludeIf o c ip it ti ei so =>
        simp only [validate_map_list] at h ⊢; exact h
    -- map_list_keys
    · intro reg root subs ks data path strict r h
      cases ks with
      | nil => simp only [map_list_keys] at h ⊢; exact h
      | cons key ks' =>
        simp only [map_list_keys, Option.bind_eq_bind', Option.bind_eq_some']
          at h ⊢
        obtain ⟨se, hse, rest, hrest, hr⟩ := h
        exact ⟨se, ihMs _ _ _ _ _ _ _ _ hse, rest,
          ihMk _ _ _ _ _ _ _ _ hrest, hr⟩
    -- map_list_subs
    · intro reg root subs data path strict key r h
      cases subs with
      | nil => simp only [map_list_subs] at h ⊢; exact h
      | cons v vs =>
        simp only [map_list_subs, Option.bind_eq_bind', Option.bind_eq_some']
          at h ⊢
        obtain ⟨e, he, es, hes, hr⟩ := h
        exact ⟨e, ihIt _ _ _ _ _ _ _ _ he, es, ihMs _ _ _ _ _ _ _ _ hes, hr⟩
    -- validate_include
    · intro reg root v data path strict r h
      cases v with
      | vinclude o c nm so =>
        simp only [validate_include] at h ⊢
        cases hg : regGet reg nm with
        | none => simp only [hg] at h ⊢; exact h
        | some inst => simp only [hg] at h ⊢; exact ihV _ _ _ _ _ _ _ h
      | prim o c ck => simp only [validate_include] at h ⊢; exact h
      | vmap o c subs => simp only [validate_include] at h ⊢; exact h
      | vlist o c subs => simp only [validate_include] at h ⊢; exact h
      | vany o c subs => simp only [validate_include] at h ⊢; exact h
      | vincludeIf o c ip it ti ei so =>
        simp only [validate_include] at h ⊢; exact h
    -- validate_include_if
    · intro reg root v data path strict r h
      cases v with
      | vincludeIf o c ip it ti ei so =>
        simp only [validate_include_if] at h ⊢
        cases root with
        | none => simp at h
        | some rootDoc =>
          cases hd : dpathGet rootDoc (dpathSegs ip) with
          | none =>
            simp only [hd] at h ⊢
            by_cases hs : (so.getD strict) = true
            · rw [if_pos hs] at h ⊢; exact h
            · rw [if_neg hs] at h ⊢
              exact ihBody _ _ _ _ _ _ _ _ _ _ h
          | some ifData =>
            simp only [hd] at h ⊢
            exact ihBody _ _ _ _ _ _ _ _ _ _ h
      | prim o c ck => simp only [validate_include_if] at h ⊢; exact h
      | vmap o c subs => simp only [validate_include_if] at h ⊢; exact h
      | vlist o c subs => simp only [validate_include_if] at h ⊢; exact h
      | vany o c subs => simp only [validate_include_if] at h ⊢; exact h
      | vinclude o c nm so => simp only [validate_include_if] at h ⊢; exact h
    -- include_if_body
    · intro reg ifData dp it ti ei data path strict r h
      simp only [include_if_body] at h ⊢
      cases hg : regGet reg it with
      | none => simp only [hg] at h ⊢; exact h
      | some ifSchema =>
        simp only [hg, Option.bind_eq_bind', Option.bind_eq_some'] at h ⊢
        obtain ⟨ce, hce, h2⟩ := h
        refine ⟨ce, ihV _ _ _ _ _ _ _ hce, ?_⟩
        by_cases hc : ce = []
        · rw [if_pos hc] at h2 ⊢
          exact ihRes _ _ _ _ _ _ h2
        · rw [if_neg hc] at h2 ⊢
          cases ei with
          | none => exact h2
          | some nm => exact ihRes _ _ _ _ _ _ h2
    -- resolve_include_name
    · intro reg name data path strict r h
      simp only [resolve_include_name] at h ⊢
      cases hg : regGet reg name with
      | none => simp only [hg] at h ⊢; exact h
      | some inst => simp only [hg] at h ⊢; exact ihV _ _ _ _ _ _ _ h
    -- validate_any
    · intro reg root v data path strict r h
      cases v with
      | vany o c subs =>
        simp only [validate_any] at h ⊢
        by_cases hs : subs.isEmpty
        · rw [if_pos hs] at h ⊢; exact h
        · rw [if_neg hs] at h ⊢
          simp only [Option.bind_eq_bind', Option.bind_eq_some'] at h ⊢
          obtain ⟨se, hse, hr⟩ := h
          exact ⟨se, ihAs _ _ _ _ _ _ _ hse, hr⟩
      | prim o c ck => simp only [validate_any] at h ⊢; exact h
      | vmap o c subs => simp only [validate_any] at h ⊢; exact h
      | vlist o c subs => simp only [validate_any] at h ⊢; exact h
      | vinclude o c nm so => simp only [validate_any] at h ⊢; exact h
      | vincludeIf o c ip it ti ei so =>
        simp only [validate_any] at h ⊢; exact h
    -- any_subs
    · intro reg root subs data path strict r h
      cases subs with
      | nil => simp only [any_subs] at h ⊢; exact h
      | cons v vs =>
        simp only [any_subs, Option.bind_eq_bind', Option.bind_eq_some']
          at h ⊢
        obtain ⟨e, he, es, hes, hr⟩ := h
        exact ⟨e, ihV _ _ _ _ _ _ _ he, es, ihAs _ _ _ _ _ _ _ hes, hr⟩

/-- `mapM` over `Option` preserves any pointwise some-result refinement. -/
theorem mapM_mono_of {α β : Type} (f g : α → Option β)
    (hfg : ∀ a b, f a = some b → g a = some b) :
    ∀ (l : List α) (p : List β), l.mapM f = some p → l.mapM g = some p := by
  intro l
  induction l with
  | nil => intro p h; simpa using h
  | cons a t ih =>
    intro p h
    rw [List.mapM_cons] at h ⊢
    simp only [Option.bind_eq_bind', Option.bind_eq_some'] at h ⊢
    obtain ⟨b, hb, q, hq, hp⟩ := h
    exact ⟨b, hfg a b hb, q, ih q hq, hp⟩

/-- A defined `mapM` over `Option` keeps the list's length. -/
theorem mapM_some_length {α β : Type} (f : α → Option β) :
    ∀ (l : List α) (p : List β), l.mapM f = some p → p.length = l.length := by
  intro l
  induction l with
  | nil =>
    intro p h
    rw [List.mapM_nil] at h
    obtain rfl := Option.some.inj h
    rfl
  | cons a t ih =>
    intro p h
    rw [List.mapM_cons] at h
    simp only [Option.bind_eq_bind', Option.bind_eq_some'] at h
    obtain ⟨b, _, q, hq, hp⟩ := h
    obtain rfl := Option.some.inj hp
    simp [ih q hq]

/-- The inner sub-validator loop of `_validate_map_list` collects exactly the
nonempty results of validating each sub-validator at the key (each result
also holds at the loop's entry fuel, by monotonicity). -/
theorem map_list_subs_eq (fuel : Nat) (reg : Registry) (root : Option Value)
    (subs : List Validator) (data : Value) (path : Path) (strict : Bool)
    (key : Key) (subErrs : List (List String))
    (h : map_list_subs fuel reg root subs data path strict key = some subErrs) :
    ∃ perSub : List (List String),
      subs.mapM
          (fun v => validate_item fuel reg root (.leaf v) data path strict key)
        = some perSub ∧
      subErrs = perSub.filter (fun e => !e.isEmpty) := by
  induction subs generalizing fuel subErrs with
  | nil =>
    cases fuel with
    | zero => simp [map_list_subs] at h
    | succ f =>
      simp only [map_list_subs] at h
      obtain rfl := Option.some.inj h
      exact ⟨[], rfl, by simp⟩
  | cons v vs ih =>
    cases fuel with
    | zero => simp [map_list_subs] at h
    | succ f =>
      simp only [map_list_subs, Option.bind_eq_bind', Option.bind_eq_some'] at h
      obtain ⟨e, he, es, hes, hr⟩ := h
      obtain ⟨perSub, hmapM, hfil⟩ := ih f es hes
      have hmono := engine_mono f (f+1) (by omega)
      have he' : validate_item (f+1) reg root (.leaf v) data path strict key
          = some e := hmono.2.1 _ _ _ _ _ _ _ _ he
      have hmapM' : vs.mapM
          (fun v' => validate_item (f+1) reg root (.leaf v') data path strict key)
          = some perSub :=
        mapM_mono_of _ _ (fun a b hb => hmono.2.1 _ _ _ _ _ _ _ _ hb) vs perSub
          hmapM
      refine ⟨e :: perSub, ?_, ?_⟩
      · rw [List.mapM_cons]
        simp only [Option.bind_eq_bind', Option.bind_eq_some']
        exact ⟨e, he', perSub, hmapM', rfl⟩
      · obtain rfl := Option.some.inj hr
        by_cases hc : e = []
        · simp [hc, hfil, List.filter_cons]
        · simp [hc, hfil, List.filter_cons, List.isEmpty_iff]

/-- The sub-validator loop of `_validate_any` collects exactly the nonempty
results of the full recursive check of each sub-validator. -/
theorem any_subs_eq (fuel : Nat) (reg : Registry) (root : Option Value)
    (subs : List Validator) (data : Value) (path : Path) (strict : Bool)
    (subErrs : List (List String))
    (h : any_subs fuel reg root subs data path strict = some subErrs) :
    ∃ perSub : List (List String),
      subs.mapM (fun v => validate fuel reg root (.leaf v) data path strict)
        = some perSub ∧
      subErrs = perSub.filter (fun e => !e.isEmpty) := by
  induction subs generalizing fuel subErrs with
  | nil =>
    cases fuel with
    | zero => simp [any_subs] at h
    | succ f =>
      simp only [any_subs] at h
      obtain rfl := Option.some.inj h
      exact ⟨[], rfl, by simp⟩
  | cons v vs ih =>
    cases fuel with
    | zero => simp [any_subs] at h
    | succ f =>
      simp only [any_subs, Option.bind_eq_bind', Option.bind_eq_some'] at h
      obtain ⟨e, he, es, hes, hr⟩ := h
      obtain ⟨perSub, hmapM, hfil⟩ := ih f es hes
      have hmono := engine_mono f (f+1) (by omega)
      have he' : validate (f+1) reg root (.leaf v) data path strict = some e :=
        hmono.1 _ _ _ _ _ _ _ he
      have hmapM' : vs.mapM
          (fun v' => validate (f+1) reg root (.leaf v') data path strict)
          = some perSub :=
        mapM_mono_of _ _ (fun a b hb => hmono.1 _ _ _ _ _ _ _ hb) vs perSub hmapM
      refine ⟨e :: perSub, ?_, ?_⟩
      · rw [List.mapM_cons]
        simp only [Option.bind_eq_bind', Option.bind_eq_some']
        exact ⟨e, he', perSub, hmapM', rfl⟩
      · obtain rfl := Option.some.inj hr
        by_cases hc : e = []
        · simp [hc, hfil, List.filter_cons]
        · simp [hc, hfil, List.filter_cons, List.isEmpty_iff]

/-- C6: for a static Composite map node, strict validation flags every data
key not among the declared schema keys as one `Unexpected element` error at
that key's Path (one per extra key, in data order, ahead of the per-child
errors), and lenient validation emits no error for such extra keys; in
particular for the schema `{a: str()}` and the data `{a: "x", b: 1}`, strict
validation yields exactly one error `b: Unexpected element` and lenient
validation yields none. -/
theorem C6_thm (fuel : Nat) (reg : Registry) (root : Option Value)
    (cs : List (String × SchemaNode)) (entries : List (String × Value))
    (path : Path) (itemsT itemsF : List String)
    (hT : items_loop fuel reg root (SchemaNode.children (.smap cs))
        (.vmap entries) path true = some itemsT)
    (hF : items_loop fuel reg root (SchemaNode.children (.smap cs))
        (.vmap entries) path false = some itemsF) :
    validate (fuel+3) reg root (.smap cs) (.vmap entries) path true
      = some ((((getKeys (.vmap entries)).filter
            (fun k => !(SchemaNode.keys (.smap cs)).contains k)).map
          (fun k => renderPath (path ++ [k]) ++ ": Unexpected element"))
        ++ itemsT) ∧
    validate (fuel+3) reg root (.smap cs) (.vmap entries) path false
      = some itemsF ∧
    validate 8 [] none (.smap [("a", .leaf (.prim false false strCheck))])
        (.vmap [("a", .vstr "x"), ("b", .vint 1)]) [] true
      = some ["b: Unexpected element"] ∧
    validate 8 [] none (.smap [("a", .leaf (.prim false false strCheck))])
        (.vmap [("a", .vstr "x"), ("b", .vint 1)]) [] false
      = some [] := by
  refine ⟨?_, ?_, by decide, by decide⟩
  · simp [validate, validate_static_map_list, static_body, Value.isMap, hT]
  · simp [validate, validate_static_map_list, static_body, Value.isMap, hF]

/-- C6 witness: one unknown key of an empty schema, flagged under strict and
passed under lenient. -/
theorem C6_wit :
    validate 4 [] none (.smap []) (.vmap [("z", .vint 3)]) [] true
      = some ["z: Unexpected element"] ∧
    validate 4 [] none (.smap []) (.vmap [("z", .vint 3)]) [] false
      = some [] := by
  have h := C6_thm 1 [] none [] [("z", .vint 3)] [] [] [] rfl rfl
  exact ⟨h.1.trans (by decide), h.2.1.trans (by decide)⟩

/-- C7: a dynamic Map or List validator with no sub-validators accepts any
data with no errors; with sub-validators it checks every key of the data
(any-of per key): a key some sub-validator of which accepts contributes
nothing, and a key every sub-validator of which fails contributes the
concatenation of all the sub-validators' error lists. -/
theorem C7_thm (fuel : Nat) (reg : Registry) (root : Option Value)
    (o c : Bool) (subs : List Validator) (data : Value) (path : Path)
    (strict : Bool) (key : Key) (ks : List Key)
    (subErrs perSub : List (List String)) (rest : List String) :
    (validate_map_list (fuel+1) reg root (.vmap o c []) data path strict
      = some []) ∧
    (validate_map_list (fuel+1) reg root (.vlist o c []) data path strict
      = some []) ∧
    (subs ≠ [] →
      validate_map_list (fuel+1) reg root (.vmap o c subs) data path strict
        = map_list_keys fuel reg root subs (getKeys data) data path strict) ∧
    (subs ≠ [] →
      validate_map_list (fuel+1) reg root (.vlist o c subs) data path strict
        = map_list_keys fuel reg root subs (getKeys data) data path strict) ∧
    (map_list_subs fuel reg root subs data path strict key = some subErrs →
      map_list_keys fuel reg root subs ks data path strict = some rest →
      subs.mapM
          (fun v => validate_item fuel reg root (.leaf v) data path strict key)
        = some perSub →
      (([] ∈ perSub →
        map_list_keys (fuel+1) reg root subs (key :: ks) data path strict
          = some rest) ∧
       ((∀ e ∈ perSub, e ≠ []) →
        map_list_keys (fuel+1) reg root subs (key :: ks) data path strict
          = some (perSub.flatten ++ rest)))) := by
  refine ⟨by simp [validate_map_list], by simp [validate_map_list],
    fun hne => ?_, fun hne => ?_, fun hsubs hrest hmapM => ?_⟩
  · simp only [validate_map_list]
    rw [if_neg (by simp [hne])]
  · simp only [validate_map_list]
    rw [if_neg (by simp [hne])]
  · have hlen : perSub.length = subs.length := mapM_some_length _ _ _ hmapM
    obtain ⟨perSub', hmapM', hfil⟩ := map_list_subs_eq fuel reg root subs data
      path strict key subErrs hsubs
    rw [hmapM'] at hmapM
    obtain rfl := Option.some.inj hmapM
    constructor
    · intro hmem
      have hlt : subErrs.length < subs.length := by
        rw [hfil, ← hlen]
        exact List.length_filter_lt_length_iff_exists.mpr ⟨[], hmem, by simp⟩
      simp only [map_list_keys, Option.bind_eq_bind', Option.bind_eq_some']
      refine ⟨subErrs, hsubs, rest, hrest, ?_⟩
      rw [if_neg (by omega : ¬ subErrs.length = subs.length)]
      simp
    · intro hall
      have hfil2 : subErrs = perSub' := by
        rw [hfil]
        exact List.filter_eq_self.mpr (fun a ha => by simpa using hall a ha)
      have hlen2 : subErrs.length = subs.length := by rw [hfil2, hlen]
      simp only [map_list_keys, Option.bind_eq_bind', Option.bind_eq_some']
      refine ⟨subErrs, hsubs, rest, hrest, ?_⟩
      rw [if_pos hlen2, hfil2]

/-- C7 witness: two sub-validators at a key satisfying neither (errors of
both are emitted, concatenated) and at a key satisfying one (no errors). -/
theorem C7_wit :
    validate_map_list 9 [] none
        (.vmap false false [.prim false false strCheck,
          .prim false false intCheck])
        (.vmap [("a", .vstr "x"), ("b", .vbool true)]) [] true
      = some ["b: is not a str", "b: is not an int"] := by
  have h := (C7_thm 8 [] none false false
    [.prim false false strCheck, .prim false false intCheck]
    (.vmap [("a", .vstr "x"), ("b", .vbool true)]) [] true (Key.k "a") []
    [] [] []).2.2.1 (List.cons_ne_nil _ _)
  exact h.trans (by decide)

/-- C8 counterexample: the empty-Any configuration error quotes `any` with
double quotes, not single quotes as the claim states. -/
theorem C8_cex :
    validate_any 1 [] none (.vany false false []) (.vint 1) [] true
      = some ["No validators specified for \"any\"."] ∧
    ("No validators specified for \"any\"." : String)
      ≠ "No validators specified for 'any'." := by
  exact ⟨by decide, by decide⟩

/-- C8 amended: an Any validator with no sub-validators emits exactly the
configuration error `No validators specified for "any".` (double quotes);
otherwise every sub-validator is checked by the full recursion, the result
is empty when some sub-validator succeeds, and it is the concatenation of
all the sub-validators' errors when all of them fail. -/
theorem C8_thm (fuel : Nat) (reg : Registry) (root : Option Value)
    (o c : Bool) (subs : List Validator) (data : Value) (path : Path)
    (strict : Bool) (subErrs perSub : List (List String)) :
    (validate_any (fuel+1) reg root (.vany o c []) data path strict
      = some ["No validators specified for \"any\"."]) ∧
    (subs ≠ [] →
      any_subs fuel reg root subs data path strict = some subErrs →
      validate_any (fuel+1) reg root (.vany o c subs) data path strict
        = some (if subErrs.length = subs.length then subErrs.flatten else [])) ∧
    (subs ≠ [] →
      any_subs fuel reg root subs data path strict = some subErrs →
      subs.mapM (fun v => validate fuel reg root (.leaf v) data path strict)
        = some perSub →
      (([] ∈ perSub →
        validate_any (fuel+1) reg root (.vany o c subs) data path strict
          = some []) ∧
       ((∀ e ∈ perSub, e ≠ []) →
        validate_any (fuel+1) reg root (.vany o c subs) data path strict
          = some perSub.flatten))) := by
  refine ⟨by simp [validate_any], fun hne hsubs => ?_,
    fun hne hsubs hmapM => ?_⟩
  · simp only [validate_any]
    rw [if_neg (by simp [hne])]
    simp only [Option.bind_eq_bind', Option.bind_eq_some']
    exact ⟨subErrs, hsubs, rfl⟩
  · have hlen : perSub.length = subs.length := mapM_some_length _ _ _ hmapM
    obtain ⟨perSub', hmapM', hfil⟩ := any_subs_eq fuel reg root subs data path
      strict subErrs hsubs
    rw [hmapM'] at hmapM
    obtain rfl := Option.some.inj hmapM
    constructor
    · intro hmem
      have hlt : subErrs.length < subs.length := by
        rw [hfil, ← hlen]
        exact List.length_filter_lt_length_iff_exists.mpr ⟨[], hmem, by simp⟩
      simp only [validate_any]
      rw [if_neg (by simp [hne])]
      simp only [Option.bind_eq_bind', Option.bind_eq_some']
      refine ⟨subErrs, hsubs, ?_⟩
      rw [if_neg (by omega : ¬ subErrs.length = subs.length)]
    · intro hall
      have hfil2 : subErrs = perSub' := by
        rw [hfil]
        exact List.filter_eq_self.mpr (fun a ha => by simpa using hall a ha)
      have hlen2 : subErrs.length = subs.length := by rw [hfil2, hlen]
      simp only [validate_any]
      rw [if_neg (by simp [hne])]
      simp only [Option.bind_eq_bind', Option.bind_eq_some']
      refine ⟨subErrs, hsubs, ?_⟩
      rw [if_pos hlen2, hfil2]

/-- C8 witness: two failing sub-validators have both error lists emitted. -/
theorem C8_wit :
    validate_any 9 [] none
        (.vany false false [.prim false false strCheck,
          .prim false false intCheck])
        (.vbool true) [] true
      = some [": is not a str", ": is not an int"] := by
  have h := ((C8_thm 8 [] none false false
    [.prim false false strCheck, .prim false false intCheck]
    (.vbool true) [] true [[": is not a str"], [": is not an int"]]
    [[": is not a str"], [": is not an int"]]).2.2 (List.cons_ne_nil _ _)
    (by decide) (by decide)).2 (by decide)
  exact h.trans (by decide)

/-- A literal `<path>: <rest>` message is path-qualified. -/
theorem pathErr_append (p : Path) (s t : String) (h : s = ": " ++ t) :
    pathErr (renderPath p ++ s) :=
  ⟨p, t, Or.inl (by rw [h, ← String.append_assoc])⟩

/-- A `<path> : '<value>'<rest>` message is path-qualified. -/
theorem pathErr_spaced_quote (p : Path) (x tail : String) :
    pathErr (renderPath p ++ " : '" ++ x ++ tail) := by
  refine ⟨p, "'" ++ x ++ tail, Or.inr ?_⟩
  simp only [String.append_assoc]
  rw [← String.append_assoc " : " "'", show (" : " ++ "'" : String) = " : '"
    from by decide]

/-- Every error list any engine function returns holds only path-qualified
errors and the three path-less configuration errors (one conjunct per engine
function). -/
theorem engine_goodErr : ∀ fuel : Nat,
    (∀ reg root node data path strict errs,
      validate fuel reg root node data path strict = some errs →
      ∀ e ∈ errs, goodErr e) ∧
    (∀ reg root node data path strict key errs,
      validate_item fuel reg root node data path strict key = some errs →
      ∀ e ∈ errs, goodErr e) ∧
    (∀ reg root node data path strict errs,
      validate_static_map_list fuel reg root node data path strict = some errs →
      ∀ e ∈ errs, goodErr e) ∧
    (∀ reg root node data path strict errs,
      static_body fuel reg root node data path strict = some errs →
      ∀ e ∈ errs, goodErr e) ∧
    (∀ reg root items data path strict errs,
      items_loop fuel reg root items data path strict = some errs →
      ∀ e ∈ errs, goodErr e) ∧
    (∀ reg root v data path strict errs,
      validate_map_list fuel reg root v data path strict = some errs →
      ∀ e ∈ errs, goodErr e) ∧
    (∀ reg root subs ks data path strict errs,
      map_list_keys fuel reg root subs ks data path strict = some errs →
      ∀ e ∈ errs, goodErr e) ∧
    (∀ reg root subs data path strict key errLists,
      map_list_subs fuel reg root subs data path strict key = some errLists →
      ∀ l ∈ errLists, ∀ e ∈ l, goodErr e) ∧
    (∀ reg root v data path strict errs,
      validate_include fuel reg root v data path strict = some errs →
      ∀ e ∈ errs, goodErr e) ∧
    (∀ reg root v data path strict errs,
      validate_include_if fuel reg root v data path strict = some errs →
      ∀ e ∈ errs, goodErr e) ∧
    (∀ reg ifData dp it ti ei data path strict errs,
      include_if_body fuel reg ifData dp it ti ei data path strict = some errs →
      ∀ e ∈ errs, goodErr e) ∧
    (∀ reg name data path strict errs,
      resolve_include_name fuel reg name data path strict = some errs →
      ∀ e ∈ errs, goodErr e) ∧
    (∀ reg root v data path strict errs,
      validate_any fuel reg root v data path strict = some errs →
      ∀ e ∈ errs, goodErr e) ∧
    (∀ reg root subs data path strict errLists,
      any_subs fuel reg root subs data path strict = some errLists →
      ∀ l ∈ errLists, ∀ e ∈ l, goodErr e) := by
  intro fuel
  induction fuel with
  | zero =>
    exact ⟨fun _ _ _ _ _ _ _ h => by simp [validate] at h,
      fun _ _ _ _ _ _ _ _ h => by simp [validate_item] at h,
      fun _ _ _ _ _ _ _ h => by simp [validate_static_map_list] at h,
      fun _ _ _ _ _ _ _ h => by simp [static_body] at h,
      fun _ _ _ _ _ _ _ h => by simp [items_loop] at h,
      fun _ _ _ _ _ _ _ h => by simp [validate_map_list] at h,
      fun _ _ _ _ _ _ _ _ h => by simp [map_list_keys] at h,
      fun _ _ _ _ _ _ _ _ h => by simp [map_list_subs] at h,
      fun _ _ _ _ _ _ _ h => by simp [validate_include] at h,
      fun _ _ _ _ _ _ _ h => by simp [validate_include_if] at h,
      fun _ _ _ _ _ _ _ _ _ _ h => by simp [include_if_body] at h,
      fun _ _ _ _ _ _ h => by simp [resolve_include_name] at h,
      fun _ _ _ _ _ _ _ h => by simp [validate_any] at h,
      fun _ _ _ _ _ _ _ h => by simp [any_subs] at h⟩
  | succ n ih =>
    obtain ⟨ihV, ihIt, ihSt, ihB, ihIl, ihMl, ihMk, ihMs, ihInc, ihIif,
      ihBody, ihRes, ihAny, ihAs⟩ := ih
    refine ⟨?_, ?_, ?_, ?_, ?_, ?_, ?_, ?_, ?_, ?_, ?_, ?_, ?_, ?_⟩
    -- validate
    · intro reg root node data path strict errs h e hmem
      cases node with
      | smap cs =>
        simp only [validate] at h
        exact ihSt _ _ _ _ _ _ _ h e hmem
      | slist cs =>
        simp only [validate] at h
        exact ihSt _ _ _ _ _ _ _ h e hmem
      | leaf v =>
        simp only [validate] at h
        by_cases h0 :
            (data.isNull && v.is_optional && v.can_be_none && !v.isIncludeIf) = true
        · rw [if_pos h0] at h
          obtain rfl := Option.some.inj h
          simp at hmem
        · rw [if_neg h0] at h
          by_cases hp : validate_primitive v data path = []
          · rw [if_pos hp] at h
            cases v with
            | prim o c ck =>
              simp [Validator.isInclude] at h
              subst h
              simp at hmem
            | vmap o c subs =>
              simp [Validator.isInclude] at h
              exact ihMl _ _ _ _ _ _ _ h e hmem
            | vlist o c subs =>
              simp [Validator.isInclude] at h
              exact ihMl _ _ _ _ _ _ _ h e hmem
            | vany o c subs =>
              simp [Validator.isInclude] at h
              exact ihAny _ _ _ _ _ _ _ h e hmem
            | vinclude o c nm so =>
              simp [Validator.isInclude] at h
              exact ihInc _ _ _ _ _ _ _ h e hmem
            | vincludeIf o c ip it ti ei so =>
              simp [Validator.isInclude] at h
              exact ihIif _ _ _ _ _ _ _ h e hmem
          · rw [if_neg hp] at h
            obtain rfl := Option.some.inj h
            simp only [validate_primitive, List.mem_map] at hmem
            obtain ⟨msg, _, rfl⟩ := hmem
            exact Or.inl ⟨path, msg, Or.inl rfl⟩
    -- validate_item
    · intro reg root node data path strict key errs h e hmem
      simp only [validate_item] at h
      cases hl : lookupData data key with
      | some item =>
        simp only [hl] at h
        exact ihV _ _ _ _ _ _ _ h e hmem
      | none =>
        simp only [hl] at h
        by_cases hii : node.isIncludeIfLeaf = true
        · simp only [hii, Bool.not_true, Bool.false_eq_true, if_false] at h
          exact ihV _ _ _ _ _ _ _ h e hmem
        · have hii' : node.isIncludeIfLeaf = false := by
            revert hii; cases node.isIncludeIfLeaf <;> simp
          simp only [hii', Bool.not_false, if_true] at h
          by_cases hopt : (node.isValidatorLeaf && node.leafOptional) = true
          · rw [if_pos hopt] at h
            obtain rfl := Option.some.inj h
            simp at hmem
          · rw [if_neg hopt] at h
            obtain rfl := Option.some.inj h
            simp only [List.mem_singleton] at hmem
            subst hmem
            exact Or.inl (pathErr_append _ _ "Required field missing"
              (by decide))
    -- validate_static_map_list
    · intro reg root node data path strict errs h e hmem
      cases node with
      | smap cs =>
        simp only [validate_static_map_list] at h
        by_cases hm : data.isMap = true
        · simp only [hm, Bool.not_true, Bool.false_eq_true, if_false] at h
          exact ihB _ _ _ _ _ _ _ h e hmem
        · have hm' : data.isMap = false := by
            revert hm; cases data.isMap <;> simp
          simp only [hm', Bool.not_false, if_true] at h
          by_cases hn : data.isNull = true
          · rw [if_pos hn] at h
            obtain rfl := Option.some.inj h
            simp only [List.mem_singleton] at hmem
            subst hmem
            exact Or.inl (pathErr_append _ _ "Required field missing"
              (by decide))
          · rw [if_neg hn] at h
            obtain rfl := Option.some.inj h
            simp only [List.mem_singleton] at hmem
            subst hmem
            exact Or.inl (pathErr_spaced_quote _ _ "' is not a map")
      | slist cs =>
        simp only [validate_static_map_list] at h
        by_cases hm : data.isList = true
        · simp only [hm, Bool.not_true, Bool.false_eq_true, if_false] at h
          exact ihB _ _ _ _ _ _ _ h e hmem
        · have hm' : data.isList = false := by
            revert hm; cases data.isList <;> simp
          simp only [hm', Bool.not_false, if_true] at h
          obtain rfl := Option.some.inj h
          simp only [List.mem_singleton] at hmem
          subst hmem
          exact Or.inl (pathErr_spaced_quote _ _ "' is not a list")
      | leaf v =>
        simp only [validate_static_map_list] at h
        obtain rfl := Option.some.inj h
        simp at hmem
    -- static_body
    · intro reg root node data path strict errs h e hmem
      simp only [static_body, Option.bind_eq_bind', Option.bind_eq_some'] at h
      obtain ⟨items, hitems, hr⟩ := h
      obtain rfl := Option.some.inj hr
      rcases List.mem_append.mp hmem with hm1 | hm2
      · cases strict with
        | false => simp at hm1
        | true =>
          simp only [if_true, List.mem_map] at hm1
          obtain ⟨k, _, rfl⟩ := hm1
          exact Or.inl (pathErr_append _ _ "Unexpected element" (by decide))
      · exact ihIl _ _ _ _ _ _ _ hitems e hm2
    -- items_loop
    · intro reg root items data path strict errs h e hmem
      cases items with
      | nil =>
        simp only [items_loop] at h
        obtain rfl := Option.some.inj h
        simp at hmem
      | cons kc rest =>
        obtain ⟨key, child⟩ := kc
        simp only [items_loop, Option.bind_eq_bind', Option.bind_eq_some'] at h
        obtain ⟨e1, he1, es, hes, hr⟩ := h
        obtain rfl := Option.some.inj hr
        rcases List.mem_append.mp hmem with hm1 | hm2
        · exact ihIt _ _ _ _ _ _ _ _ he1 e hm1
        · exact ihIl _ _ _ _ _ _ _ hes e hm2
    -- validate_map_list
    · intro reg root v data path strict errs h e hmem
      cases v with
      | vmap o c subs =>
        simp only [validate_map_list] at h
        by_cases hs : subs.isEmpty
        · rw [if_pos hs] at h
          obtain rfl := Option.some.inj h
          simp at hmem
        · rw [if_neg hs] at h
          exact ihMk _ _ _ _ _ _ _ _ h e hmem
      | vlist o c subs =>
        simp only [validate_map_list] at h
        by_cases hs : subs.isEmpty
        · rw [if_pos hs] at h
          obtain rfl := Option.some.inj h
          simp at hmem
        · rw [if_neg hs] at h
          exact ihMk _ _ _ _ _ _ _ _ h e hmem
      | prim o c ck =>
        simp only [validate_map_list] at h
        obtain rfl := Option.some.inj h
        simp at hmem
      | vany o c subs =>
        simp only [validate_map_list] at h
        obtain rfl := Option.some.inj h
        simp at hmem
      | vinclude o c nm so =>
        simp only [validate_map_list] at h
        obtain rfl := Option.some.inj h
        simp at hmem
      | vincludeIf o c ip it ti ei so =>
        simp only [validate_map_list] at h
        obtain rfl := Option.some.inj h
        simp at hmem
    -- map_list_keys
    · intro reg root subs ks data path strict errs h e hmem
      cases ks with
      | nil =>
        simp only [map_list_keys] at h
        obtain rfl := Option.some.inj h
        simp at hmem
      | cons key ks' =>
        simp only [map_list_keys, Option.bind_eq_bind', Option.bind_eq_some']
          at h
        obtain ⟨se, hse, rest, hrest, hr⟩ := h
        obtain rfl := Option.some.inj hr
        rcases List.mem_append.mp hmem with hm1 | hm2
        · by_cases hlen : se.length = subs.length
          · rw [if_pos hlen] at hm1
            obtain ⟨l, hl, hel⟩ := List.mem_flatten.mp hm1
            exact ihMs _ _ _ _ _ _ _ _ hse l hl e hel
          · rw [if_neg hlen] at hm1
            simp at hm1
        · exact ihMk _ _ _ _ _ _ _ _ hrest e hm2
    -- map_list_subs
    · intro reg root subs data path strict key errLists h l hl e hel
      cases subs with
      | nil =>
        simp only [map_list_subs] at h
        obtain rfl := Option.some.inj h
        simp at hl
      | cons v vs =>
        simp only [map_list_subs, Option.bind_eq_bind', Option.bind_eq_some']
          at h
        obtain ⟨err, herr, rest, hrest, hr⟩ := h
        obtain rfl := Option.some.inj hr
        by_cases hc : err = []
        · rw [if_pos hc] at hl
          exact ihMs _ _ _ _ _ _ _ _ hrest l hl e hel
        · rw [if_neg hc] at hl
          rcases List.mem_cons.mp hl with rfl | hlr
          · exact ihIt _ _ _ _ _ _ _ _ herr e hel
          · exact ihMs _ _ _ _ _ _ _ _ hrest l hlr e hel
    -- validate_include
    · intro reg root v data path strict errs h e hmem
      cases v with
      | vinclude o c nm so =>
        simp only [validate_include] at h
        cases hg : regGet reg nm with
        | none =>
          simp only [hg] at h
          obtain rfl := Option.some.inj h
          simp only [List.mem_singleton] at hmem
          subst hmem
          exact Or.inr (Or.inl ⟨nm, rfl⟩)
        | some inst =>
          simp only [hg] at h
          exact ihV _ _ _ _ _ _ _ h e hmem
      | prim o c ck =>
        simp only [validate_include] at h
        obtain rfl := Option.some.inj h
        simp at hmem
      | vmap o c subs =>
        simp only [validate_include] at h
        obtain rfl := Option.some.inj h
        simp at hmem
      | vlist o c subs =>
        simp only [validate_include] at h
        obtain rfl := Option.some.inj h
        simp at hmem
      | vany o c subs =>
        simp only [validate_include] at h
        obtain rfl := Option.some.inj h
        simp at hmem
      | vincludeIf o c ip it ti ei so =>
        simp only [validate_include] at h
        obtain rfl := Option.some.inj h
        simp at hmem
    -- validate_include_if
    · intro reg root v data path strict errs h e hmem
      cases v with
      | vincludeIf o c ip it ti ei so =>
        simp only [validate_include_if] at h
        cases root with
        | none => simp at h
        | some rootDoc =>
          cases hd : dpathGet rootDoc (dpathSegs ip) with
          | none =>
            simp only [hd] at h
            by_cases hs : (so.getD strict) = true
            · rw [if_pos hs] at h
              obtain rfl := Option.some.inj h
              simp only [List.mem_singleton] at hmem
              subst hmem
              exact Or.inr (Or.inr (Or.inr ⟨ip, rfl⟩))
            · rw [if_neg hs] at h
              exact ihBody _ _ _ _ _ _ _ _ _ _ h e hmem
          | some ifData =>
            simp only [hd] at h
            exact ihBody _ _ _ _ _ _ _ _ _ _ h e hmem
      | prim o c ck =>
        simp only [validate_include_if] at h
        obtain rfl := Option.some.inj h
        simp at hmem
      | vmap o c subs =>
        simp only [validate_include_if] at h
        obtain rfl := Option.some.inj h
        simp at hmem
      | vlist o c subs =>
        simp only [validate_include_if] at h
        obtain rfl := Option.some.inj h
        simp at hmem
      | vany o c subs =>
        simp only [validate_include_if] at h
        obtain rfl := Option.some.inj h
        simp at hmem
      | vinclude o c nm so =>
        simp only [validate_include_if] at h
        obtain rfl := Option.some.inj h
        simp at hmem
    -- include_if_body
    · intro reg ifData dp it ti ei data path strict errs h e hmem
      simp only [include_if_body] at h
      cases hg : regGet reg it with
      | none =>
        simp only [hg] at h
        obtain rfl := Option.some.inj h
        simp only [List.mem_singleton] at hmem
        subst hmem
        exact Or.inr (Or.inl ⟨it, rfl⟩)
      | some ifSchema =>
        simp only [hg, Option.bind_eq_bind', Option.bind_eq_some'] at h
        obtain ⟨ce, hce, h2⟩ := h
        by_cases hc : ce = []
        · rw [if_pos hc] at h2
          exact ihRes _ _ _ _ _ _ h2 e hmem
        · rw [if_neg hc] at h2
          cases ei with
          | none =>
            obtain rfl := Option.some.inj h2
            by_cases hu : (strict && !data.isNull) = true
            · rw [if_pos hu] at hmem
              simp only [List.mem_singleton] at hmem
              subst hmem
              exact Or.inl (pathErr_append _ _ "Unexpected element"
                (by decide))
            · rw [if_neg hu] at hmem
              simp at hmem
          | some nm => exact ihRes _ _ _ _ _ _ h2 e hmem
    -- resolve_include_name
    · intro reg name data path strict errs h e hmem
      simp only [resolve_include_name] at h
      cases hg : regGet reg name with
      | none =>
        simp only [hg] at h
        obtain rfl := Option.some.inj h
        simp only [List.mem_singleton] at hmem
        subst hmem
        exact Or.inr (Or.inl ⟨name, rfl⟩)
      | some inst =>
        simp only [hg] at h
        exact ihV _ _ _ _ _ _ _ h e hmem
    -- validate_any
    · intro reg root v data path strict errs h e hmem
      cases v with
      | vany o c subs =>
        simp only [validate_any] at h
        by_cases hs : subs.isEmpty
        · rw [if_pos hs] at h
          obtain rfl := Option.some.inj h
          simp only [List.mem_singleton] at hmem
          subst hmem
          exact Or.inr (Or.inr (Or.inl rfl))
        · rw [if_neg hs] at h
          simp only [Option.bind_eq_bind', Option.bind_eq_some'] at h
          obtain ⟨se, hse, hr⟩ := h
          obtain rfl := Option.some.inj hr
          by_cases hlen : se.length = subs.length
          · rw [if_pos hlen] at hmem
            obtain ⟨l, hl, hel⟩ := List.mem_flatten.mp hmem
            exact ihAs _ _ _ _ _ _ _ hse l hl e hel
          · rw [if_neg hlen] at hmem
            simp at hmem
      | prim o c ck =>
        simp only [validate_any] at h
        obtain rfl := Option.some.inj h
        simp at hmem
      | vmap o c subs =>
        simp only [validate_any] at h
        obtain rfl := Option.some.inj h
        simp at hmem
      | vlist o c subs =>
        simp only [validate_any] at h
        obtain rfl := Option.some.inj h
        simp at hmem
      | vinclude o c nm so =>
        simp only [validate_any] at h
        obtain rfl := Option.some.inj h
        simp at hmem
      | vincludeIf o c ip it ti ei so =>
        simp only [validate_any] at h
        obtain rfl := Option.some.inj h
        simp at hmem
    -- any_subs
    · intro reg root subs data path strict errLists h l hl e hel
      cases subs with
      | nil =>
        simp only [any_subs] at h
        obtain rfl := Option.some.inj h
        simp at hl
      | cons v vs =>
        simp only [any_subs, Option.bind_eq_bind', Option.bind_eq_some'] at h
        obtain ⟨err, herr, rest, hrest, hr⟩ := h
        obtain rfl := Option.some.inj hr
        by_cases hc : err = []
        · rw [if_pos hc] at hl
          exact ihAs _ _ _ _ _ _ _ hrest l hl e hel
        · rw [if_neg hc] at hl
          rcases List.mem_cons.mp hl with rfl | hlr
          · exact ihV _ _ _ _ _ _ _ herr e hel
          · exact ihAs _ _ _ _ _ _ _ hrest l hlr e hel

/-- A path-qualified error always contains a colon. -/
theorem pathErr_has_colon (e : String) (h : pathErr e) : ':' ∈ e.data := by
  obtain ⟨p, t, hc | hc⟩ := h
  · rw [hc, String.data_append, String.data_append]
    exact List.mem_append.mpr (Or.inl (List.mem_append.mpr (Or.inr
      (by decide))))
  · rw [hc, String.data_append, String.data_append]
    exact List.mem_append.mpr (Or.inl (List.mem_append.mpr (Or.inr
      (by decide))))

/-- C3 counterexample: the undefined-include error carries no path prefix —
a recursive validation at the nonempty path `a` emits exactly
`Include 'X' has not been defined.`, which is not prefixed by any rendered
Path (it contains no colon at all). -/
theorem C3_cex :
    validate 5 [] none (.leaf (.vinclude false false "X" none)) (.vint 1)
        [Key.k "a"] true
      = some ["Include 'X' has not been defined."] ∧
    ¬ pathErr "Include 'X' has not been defined." := by
  refine ⟨by decide, fun h => ?_⟩
  exact absurd (pathErr_has_colon _ h) (by decide)

/-- C3 amended: every error string the recursive validation produces is
either prefixed by a rendered Path (`<path>: ...` or the
`<path> : '<value>' is not a <map|list>` variant) or is one of the three
path-less configuration errors: `Include '<name>' has not been defined.`,
`No validators specified for "any".`, and `path '<if_path>' does not
exist.`. -/
theorem C3_thm (fuel : Nat) (reg : Registry) (root : Option Value)
    (node : SchemaNode) (data : Value) (path : Path) (strict : Bool)
    (errs : List String)
    (h : validate fuel reg root node data path strict = some errs) :
    ∀ e ∈ errs, pathErr e ∨ configError e :=
  (engine_goodErr fuel).1 reg root node data path strict errs h

/-- C3 witness: the undefined-include error is covered by the configuration
disjunct at a concrete run. -/
theorem C3_wit :
    pathErr "Include 'X' has not been defined." ∨
      configError "Include 'X' has not been defined." :=
  C3_thm 5 [] none (.leaf (.vinclude false false "X" none)) (.vint 1)
    [Key.k "a"] true ["Include 'X' has not been defined."] (by decide)
    "Include 'X' has not been defined." (by decide)

/-- C1: IncludeIf semantics.  The engine reaches `_validate_include_if`
unchanged from the leaf dispatch; it resolves the effective strict flag
(override if set, else inherited — an override makes the result independent
of the inherited flag); when the `if_path` lookup in the bound root document
fails it returns exactly the single error `path '<if_path>' does not exist.`
under strict, and proceeds with an empty map as the looked-up value under
lenient; the condition check's errors only select the branch (swapping the
condition schema for one failing or succeeding alike leaves the result
unchanged): no condition errors are returned — the condition holding
resolves `then_include`, the condition failing resolves `else_include` when
set, and otherwise returns exactly `<path>: Unexpected element` under strict
with data present (not None) and nothing under lenient. -/
theorem C1_thm (fuel : Nat) (reg : Registry) (rootDoc : Value) (o c : Bool)
    (ip it ti : String) (ei : Option String) (so : Option Bool) (data : Value)
    (path : Path) (strict b : Bool) (root : Option Value) (ifData : Value)
    (dp : Path) (sflag : Bool) (condErrs ce1 ce2 : List String)
    (it1 it2 : String) (s1 s2 ifSchema : SchemaInst) :
    (validate (fuel+1) reg root (.leaf (.vincludeIf o c ip it ti ei so)) data
        path strict
      = validate_include_if fuel reg root (.vincludeIf o c ip it ti ei so)
        data path strict) ∧
    (validate_include_if (fuel+1) reg (some rootDoc)
        (.vincludeIf o c ip it ti ei (some b)) data path strict
      = validate_include_if (fuel+1) reg (some rootDoc)
        (.vincludeIf o c ip it ti ei (some b)) data path b) ∧
    (dpathGet rootDoc (dpathSegs ip) = none → so.getD strict = true →
      validate_include_if (fuel+1) reg (some rootDoc)
        (.vincludeIf o c ip it ti ei so) data path strict
      = some ["path '" ++ ip ++ "' does not exist."]) ∧
    (dpathGet rootDoc (dpathSegs ip) = none → so.getD strict = false →
      validate_include_if (fuel+1) reg (some rootDoc)
        (.vincludeIf o c ip it ti ei so) data path strict
      = include_if_body fuel reg (.vmap []) (ifPathDataPath ip) it ti ei data
        path (so.getD strict)) ∧
    (dpathGet rootDoc (dpathSegs ip) = some ifData →
      validate_include_if (fuel+1) reg (some rootDoc)
        (.vincludeIf o c ip it ti ei so) data path strict
      = include_if_body fuel reg ifData (ifPathDataPath ip) it ti ei data
        path (so.getD strict)) ∧
    (regGet reg it = some ifSchema →
      validate fuel reg ifSchema.rootData ifSchema.tree ifData dp sflag
        = some condErrs →
      include_if_body (fuel+1) reg ifData dp it ti ei data path sflag
        = if condErrs = [] then
            resolve_include_name fuel reg ti data path sflag
          else
            match ei with
            | some nm => resolve_include_name fuel reg nm data path sflag
            | none => some (if sflag && !data.isNull then
                [renderPath path ++ ": Unexpected element"] else [])) ∧
    (regGet reg it1 = some s1 → regGet reg it2 = some s2 →
      validate fuel reg s1.rootData s1.tree ifData dp sflag = some ce1 →
      validate fuel reg s2.rootData s2.tree ifData dp sflag = some ce2 →
      (ce1 = [] ↔ ce2 = []) →
      include_if_body (fuel+1) reg ifData dp it1 ti ei data path sflag
        = include_if_body (fuel+1) reg ifData dp it2 ti ei data path sflag) := by
  refine ⟨?_, ?_, fun hd hs => ?_, fun hd hs => ?_, fun hd => ?_,
    fun hg hce => ?_, fun hg1 hg2 hce1 hce2 hiff => ?_⟩
  · simp only [validate, Value.isNull, Validator.is_optional,
      Validator.can_be_none, Validator.isIncludeIf, Validator.isInclude,
      validate_primitive, Validator.validateLeaf]
    cases hx : validate_include_if fuel reg root
        (.vincludeIf o c ip it ti ei so) data path strict <;>
      simp [hx]
  · simp [validate_include_if]
  · simp [validate_include_if, hd, hs]
  · simp [validate_include_if, hd, hs]
  · simp [validate_include_if, hd]
  · by_cases hcnil : condErrs = []
    · simp [include_if_body, hg, hce, hcnil]
    · cases ei <;> simp [include_if_body, hg, hce, hcnil]
  · by_cases hc1 : ce1 = []
    · have hc2 : ce2 = [] := hiff.mp hc1
      simp [include_if_body, hg1, hg2, hce1, hce2, hc1, hc2]
    · have hc2 : ¬ ce2 = [] := fun h => hc1 (hiff.mpr h)
      cases ei <;> simp [include_if_body, hg1, hg2, hce1, hce2, hc1, hc2]

/-- C1 witness: the strict missing-path error at a concrete root document
with no `type` entry. -/
theorem C1_wit :
    validate_include_if 8 regEx (some (.vmap []))
        (.vincludeIf false false "/type" "isA" "wantInt" (some "wantStr")
          none)
        (.vint 5) [Key.k "value"] true
      = some ["path '/type' does not exist."] :=
  (C1_thm 7 regEx (.vmap []) false false "/type" "isA" "wantInt"
    (some "wantStr") none (.vint 5) [Key.k "value"] true true none
    (.vmap []) [] true [] [] [] "isA" "isA"
    ⟨"isA", .leaf (.prim false false eqACheck), none⟩
    ⟨"isA", .leaf (.prim false false eqACheck), none⟩
    ⟨"isA", .leaf (.prim false false eqACheck), none⟩).2.2.1 rfl rfl

/-- C5: a leaf validator that is optional and nullable (`can_be_none`) and is
not an IncludeIf validates the data value None with no error and with no
primitive or structural check run — the result is `some []` for every fuel,
even one leaving no budget for any sub-check, and for every primitive check
function. -/
theorem C5_thm (fuel : Nat) (reg : Registry) (root : Option Value)
    (v : Validator) (path : Path) (strict : Bool) (hopt : v.is_optional = true)
    (hnone : v.can_be_none = true) (hnotIf : v.isIncludeIf = false) :
    validate (fuel+1) reg root (.leaf v) .null path strict = some [] := by
  simp [validate, Value.isNull, hopt, hnone, hnotIf]

/-- C5 witness: a concrete optional nullable primitive whose check would
reject every value still yields no error on None. -/
theorem C5_wit :
    validate 1 [] none (.leaf (.prim true true (fun _ => ["boom"]))) .null []
      true = some [] :=
  C5_thm 0 [] none (.prim true true (fun _ => ["boom"])) [] true rfl rfl rfl

/-- C4: when the key lookup fails at a declared key of a static Composite:
an IncludeIf leaf is recursed into with value None (no Required-field error
at this point); an optional Validator leaf yields no error; anything else
yields exactly `<path>: Required field missing`. -/
theorem C4_thm (fuel : Nat) (reg : Registry) (root : Option Value)
    (node : SchemaNode) (data : Value) (path : Path) (strict : Bool) (key : Key)
    (hmiss : lookupData data key = none) :
    (node.isIncludeIfLeaf = true →
      validate_item (fuel+1) reg root node data path strict key
        = validate fuel reg root node .null (path ++ [key]) strict) ∧
    (∀ v : Validator, node = .leaf v → v.isIncludeIf = false →
      v.is_optional = true →
      validate_item (fuel+1) reg root node data path strict key = some []) ∧
    (node.isIncludeIfLeaf = false →
      (node.isValidatorLeaf && node.leafOptional) = false →
      validate_item (fuel+1) reg root node data path strict key
        = some [renderPath (path ++ [key]) ++ ": Required field missing"]) := by
  refine ⟨fun h => ?_, fun v hv h1 h2 => ?_, fun h1 h2 => ?_⟩
  · simp [validate_item, hmiss, h]
  · subst hv
    simp [validate_item, hmiss, SchemaNode.isIncludeIfLeaf,
      SchemaNode.isValidatorLeaf, SchemaNode.leafOptional, h1, h2]
  · simp [validate_item, hmiss, h1, h2]

/-- C4 witness: a missing key declared as an IncludeIf is recursed into with
None instead of producing a Required-field error. -/
theorem C4_wit :
    validate_item 3 [] none (.leaf (.vincludeIf false false "p" "t" "th" none
        none)) (.vmap []) [] true (Key.k "x")
      = validate 2 [] none (.leaf (.vincludeIf false false "p" "t" "th" none
        none)) .null [Key.k "x"] true :=
  (C4_thm 2 [] none _ (.vmap []) [] true (Key.k "x") rfl).1 rfl

/-- C10: a declared child that is itself a static Composite (nested literal
map or list) always yields `<path>: Required field missing` when its key
lookup fails — a Composite is not a Validator instance, so its optionality is
never consulted. -/
theorem C10_thm (fuel : Nat) (reg : Registry) (root : Option Value)
    (cs : List (String × SchemaNode)) (ls : List SchemaNode) (data : Value)
    (path : Path) (strict : Bool) (key : Key)
    (hmiss : lookupData data key = none) :
    validate_item (fuel+1) reg root (.smap cs) data path strict key
      = some [renderPath (path ++ [key]) ++ ": Required field missing"] ∧
    validate_item (fuel+1) reg root (.slist ls) data path strict key
      = some [renderPath (path ++ [key]) ++ ": Required field missing"] := by
  constructor <;>
    simp [validate_item, hmiss, SchemaNode.isIncludeIfLeaf,
      SchemaNode.isValidatorLeaf]

/-- C10 witness: a nested literal map missing from the data is a missing
required field. -/
theorem C10_wit :
    validate_item 2 [] none (.smap []) (.vmap []) [] true (Key.k "n")
      = some ["n: Required field missing"] := by
  have h := (C10_thm 1 [] none [] [] (.vmap []) [] true (Key.k "n") rfl).1
  exact h.trans (by decide)

/-- C2 counterexample: a static Composite list node with data value None
produces `<path> : 'None' is not a list`, not `Required field missing` — the
None special case of the map branch has no list analogue. -/
theorem C2_cex :
    validate 3 [] none (.slist [.leaf (.prim false false (fun _ => []))])
        .null [Key.k "a"] true
      = some ["a : 'None' is not a list"] ∧
    ("a : 'None' is not a list") ≠ ("a: Required field missing") := by
  exact ⟨by decide, by decide⟩

/-- C2 amended: for a static Composite list node, an absent value (failed
key lookup in the parent) is `Required field missing`, but a present value
that is not a list — None included — is `<path> : '<value>' is not a list`:
the absent case and the None case are handled differently, and only the map
branch special-cases None. -/
theorem C2_thm (fuel : Nat) (reg : Registry) (root : Option Value)
    (cs : List SchemaNode) (data : Value) (path : Path) (strict : Bool)
    (key : Key) :
    (lookupData data key = none →
      validate_item (fuel+1) reg root (.slist cs) data path strict key
        = some [renderPath (path ++ [key]) ++ ": Required field missing"]) ∧
    (data.isList = false →
      validate (fuel+2) reg root (.slist cs) data path strict
        = some [renderPath path ++ " : '" ++ pyStr data ++ "' is not a list"]) := by
  refine ⟨fun hmiss => ?_, fun hlist => ?_⟩
  · simp [validate_item, hmiss, SchemaNode.isIncludeIfLeaf,
      SchemaNode.isValidatorLeaf]
  · simp [validate, validate_static_map_list, hlist]

/-- C2 witness: both branches at the concrete data None. -/
theorem C2_wit :
    validate_item 3 [] none (.slist []) .null [] true (Key.k "a")
      = some ["a: Required field missing"] ∧
    validate 4 [] none (.slist []) .null [] true
      = some [" : 'None' is not a list"] := by
  have h := C2_thm 2 [] none [] .null [] true (Key.k "a")
  exact ⟨(h.1 rfl).trans (by decide), (h.2 rfl).trans (by decide)⟩

/-- C9 counterexample: `validate` binds `self._root_data` and that binding is
still on the instance after the call returns — here a call on an instance
whose `_root_data` was never assigned returns normally and leaves
`rootData = some (the data)` behind, so the root-data reference is not
scoped to the call. -/
theorem C9_cex :
    (SchemaState.validate 3
        ⟨"s", .leaf (.prim false false (fun _ => [])), [], none⟩
        (.vint 1) "d" false)
      = some (none,
        ⟨"s", .leaf (.prim false false (fun _ => [])), [], some (.vint 1)⟩) ∧
    (some (Value.vint 1) ≠ (none : Option Value)) := by
  exact ⟨rfl, by simp⟩

/-- C9 amended: a `validate` call never mutates the compiled tree, the
includes registry or the name, raises an aggregate error exactly when the
recursive validation produced a non-empty error list — but the root-data
binding it makes persists on the instance after the call (it is only
overwritten by the next call), instead of being scoped to the call. -/
theorem C9_thm (fuel : Nat) (st : SchemaState) (data : Value)
    (dataName : String) (strict : Bool) (r : Option String)
    (st' : SchemaState)
    (h : SchemaState.validate fuel st data dataName strict = some (r, st')) :
    st'.tree = st.tree ∧ st'.includes = st.includes ∧ st'.name = st.name ∧
    st'.rootData = some data ∧
    (∀ errs,
      Yamale.validate fuel st.includes (some data) st.tree data [] strict
        = some errs → (r.isSome ↔ errs ≠ [])) := by
  simp only [SchemaState.validate] at h
  cases hrun : Yamale.validate fuel st.includes (some data) st.tree data []
      strict with
  | none => simp only [hrun] at h; exact absurd h (by simp)
  | some errs =>
    simp only [hrun] at h
    by_cases he : errs = []
    · rw [if_pos he] at h
      simp only [Option.some.injEq, Prod.mk.injEq] at h
      obtain ⟨hr, hst⟩ := h
      subst hst
      refine ⟨rfl, rfl, rfl, rfl, fun errs' herrs' => ?_⟩
      obtain rfl := Option.some.inj herrs'
      simp [← hr, he]
    · rw [if_neg he] at h
      simp only [Option.some.injEq, Prod.mk.injEq] at h
      obtain ⟨hr, hst⟩ := h
      subst hst
      refine ⟨rfl, rfl, rfl, rfl, fun errs' herrs' => ?_⟩
      obtain rfl := Option.some.inj herrs'
      simp [← hr, he]

/-- C9 witness: the amended facts at a concrete failing call — it raises,
and the instance keeps the bound root data afterwards. -/
theorem C9_wit :
    ((⟨"sch", .smap [("a", .leaf (.prim false false strCheck))], [],
        none⟩ : SchemaState).validate 6 (.vmap []) "dat" false).map
      (fun p => (p.1.isSome, p.2.rootData))
      = some (true, some (Value.vmap [])) := by
  have hres : (⟨"sch", .smap [("a", .leaf (.prim false false strCheck))], [],
      none⟩ : SchemaState).validate 6 (.vmap []) "dat" false
      = some (some
          "\nError validating data dat with schema sch\n\ta: Required field missing",
        ⟨"sch", .smap [("a", .leaf (.prim false false strCheck))], [],
          some (.vmap [])⟩) := rfl
  have h := C9_thm 6
    ⟨"sch", .smap [("a", .leaf (.prim false false strCheck))], [], none⟩
    (.vmap []) "dat" false
    (some "\nError validating data dat with schema sch\n\ta: Required field missing")
    ⟨"sch", .smap [("a", .leaf (.prim false false strCheck))], [],
      some (.vmap [])⟩ hres
  rw [hres]
  simp [h.2.2.2.1]

end Yamale
